import Mathlib

/-!
Shallow embedding of the Vault Transit client (api/services/vault.js), the
PII field codec (api/services/piiEncryption.js) and the rewrap orchestrator
(rewrapCollection / _rewrapBatch in the same file).

Network effects are made explicit: every client operation returns, besides
its result and the updated client state, the list of HTTP requests it issued
to the secrets engine.  The engine itself is a parameter (a record of
response functions), as is the base64 codec used by Node's Buffer.
JavaScript promise rejection is modelled with Except; JS array holes
(undefined entries of `new Array(n)`) are modelled with Option.
-/

namespace VaultSpec

/-- An HTTP request issued by the client to the secrets engine.
The payloads recorded are exactly the data the JS code puts in the body. -/
inductive Req where
  | login (roleId secretId : Option String)
  | encryptOne (plaintextB64 : String)
  | encryptBatchReq (plaintextsB64 : List String)
  | decryptOne (ciphertext : String)
  | decryptBatchReq (ciphertexts : List String)
  | rewrapReq (ciphertext : String)
  deriving DecidableEq, Repr

/-- One entry of a `batch_results` array in an engine response:
either an `error` field or the payload (a ciphertext for encrypt,
a base64 plaintext for decrypt). -/
inductive BatchItem where
  | err (msg : String)
  | ok (payload : String)
  deriving DecidableEq, Repr

/-- The secrets engine's observable behaviour: for every request shape,
either an HTTP-error rejection (status >= 400, rejected by `_request`)
or the parsed response data the client reads. -/
structure Engine where
  login : Option String → Option String → Except String (String × Int)
  encryptOne : String → Except String String
  decryptOne : String → Except String String
  encryptBatch : List String → Except String (List BatchItem)
  decryptBatch : List String → Except String (List BatchItem)
  rewrap : String → Except String String

/-- Node's base64 codec (`Buffer.from(s).toString('base64')` and back),
kept abstract: the client only threads values through it. -/
structure Codec where
  enc64 : String → String
  dec64 : String → String

/-- The JS value of `this.tokenExpiry`: `null` (initial), `Infinity`
(static token) or a finite epoch-milliseconds number. -/
inductive Expiry where
  | null
  | inf
  | time (t : Int)
  deriving DecidableEq, Repr

/-- The mutable fields of a `VaultClient` instance. -/
structure ClientState where
  token : Option String
  tokenExpiry : Expiry
  configured : Bool
  roleId : Option String
  secretId : Option String
  deriving DecidableEq, Repr

/-- JS truthiness of a string-or-undefined value (`undefined` and `""` are falsy). -/
def truthy : Option String → Bool
  | some s => s != ""
  | none => false

/-- JS `s.startsWith(p)`, embedded on the character lists of the strings
(Lean's own `String.startsWith` is equivalent but does not reduce inside
the kernel, which concrete instantiations need). -/
def strStartsWith (s p : String) : Bool :=
  p.data.isPrefixOf s.data

/-- The guard `ct && ct.startsWith('vault:')` used on string values. -/
def isVaultStr (s : String) : Bool :=
  (s != "") && strStartsWith s "vault:"

/-- The `VaultClient` constructor: a truthy `VAULT_TOKEN` gives a static,
never-expiring session; otherwise non-placeholder AppRole credentials give a
configured session with no token yet; otherwise the session is unconfigured. -/
def mkClient (staticToken roleId secretId : Option String) : ClientState :=
  if truthy staticToken then
    { token := staticToken, tokenExpiry := Expiry.inf, configured := true,
      roleId := roleId, secretId := secretId }
  else if truthy roleId && truthy secretId
      && (roleId != some "placeholder") && (secretId != some "placeholder") then
    { token := none, tokenExpiry := Expiry.null, configured := true,
      roleId := roleId, secretId := secretId }
  else
    { token := none, tokenExpiry := Expiry.null, configured := false,
      roleId := roleId, secretId := secretId }

/-- Result of one client operation: the promise outcome, the client state
after the operation, and the requests issued, in order. -/
abbrev OpResult (α : Type) := Except String α × ClientState × List Req

/-- `Date.now() >= this.tokenExpiry` (JS coerces `null` to 0; the `Infinity`
case is unreachable because `_ensureToken` returns before the comparison). -/
def expiryReached (now : Int) : Expiry → Bool
  | Expiry.null => now ≥ 0
  | Expiry.inf => false
  | Expiry.time t => now ≥ t

/-- `VaultClient._authenticate`: POST the role credentials to the AppRole
login endpoint; on success store the client token and set the expiry to
`Date.now() + (lease_duration - 300) * 1000` (renew 5 minutes early). -/
def authenticate (E : Engine) (now : Int) (s : ClientState) : OpResult Unit :=
  match E.login s.roleId s.secretId with
  | Except.error e => (Except.error e, s, [Req.login s.roleId s.secretId])
  | Except.ok (tok, ttl) =>
      (Except.ok (),
       { s with token := some tok, tokenExpiry := Expiry.time (now + (ttl - 300) * 1000) },
       [Req.login s.roleId s.secretId])

/-- `VaultClient._ensureToken`: a static token (expiry `Infinity`) is never
renewed; otherwise authenticate when no token is held or the expiry has
passed. -/
def ensureToken (E : Engine) (now : Int) (s : ClientState) : OpResult Unit :=
  if s.tokenExpiry = Expiry.inf then (Except.ok (), s, [])
  else if !(truthy s.token) || expiryReached now s.tokenExpiry then
    authenticate E now s
  else (Except.ok (), s, [])

/-- `VaultClient.encrypt`: passthrough when unconfigured; otherwise ensure a
token, then send the base64-encoded plaintext and return the ciphertext. -/
def encrypt (E : Engine) (C : Codec) (now : Int) (s : ClientState)
    (plaintext : String) : OpResult String :=
  if !s.configured then (Except.ok plaintext, s, [])
  else
    match ensureToken E now s with
    | (Except.error e, s1, log) => (Except.error e, s1, log)
    | (Except.ok _, s1, log) =>
      let encoded := C.enc64 plaintext
      match E.encryptOne encoded with
      | Except.error e => (Except.error e, s1, log ++ [Req.encryptOne encoded])
      | Except.ok ct => (Except.ok ct, s1, log ++ [Req.encryptOne encoded])

/-- `VaultClient.decrypt`: passthrough when unconfigured; otherwise ensure a
token, then return non-envelope input unchanged (migration passthrough) and
decrypt envelope input via the engine. -/
def decrypt (E : Engine) (C : Codec) (now : Int) (s : ClientState)
    (ciphertext : String) : OpResult String :=
  if !s.configured then (Except.ok ciphertext, s, [])
  else
    match ensureToken E now s with
    | (Except.error e, s1, log) => (Except.error e, s1, log)
    | (Except.ok _, s1, log) =>
      if !(isVaultStr ciphertext) then (Except.ok ciphertext, s1, log)
      else
        match E.decryptOne ciphertext with
        | Except.error e => (Except.error e, s1, log ++ [Req.decryptOne ciphertext])
        | Except.ok p64 =>
            (Except.ok (C.dec64 p64), s1, log ++ [Req.decryptOne ciphertext])

/-- The `batch_results.map` of `encryptBatch`: return the payloads in order,
but throw on the first entry carrying an `error` field, with the given
message text in front of it. -/
def collectBatch (head : String) : List BatchItem → Except String (List String)
  | [] => Except.ok []
  | BatchItem.err m :: _ => Except.error (head ++ m)
  | BatchItem.ok c :: rest => (collectBatch head rest).map (fun cs => c :: cs)

/-- `VaultClient.encryptBatch`: passthrough when unconfigured; otherwise
ensure a token, send all values (base64) as one `batch_input` request —
even when the list is empty — and map the batch results, throwing on the
first per-item error. -/
def encryptBatch (E : Engine) (C : Codec) (now : Int) (s : ClientState)
    (values : List String) : OpResult (List String) :=
  if !s.configured then (Except.ok values, s, [])
  else
    match ensureToken E now s with
    | (Except.error e, s1, log) => (Except.error e, s1, log)
    | (Except.ok _, s1, log) =>
      let batchInput := values.map C.enc64
      match E.encryptBatch batchInput with
      | Except.error e => (Except.error e, s1, log ++ [Req.encryptBatchReq batchInput])
      | Except.ok rs =>
        match collectBatch "Vault batch encrypt error: " rs with
        | Except.error e => (Except.error e, s1, log ++ [Req.encryptBatchReq batchInput])
        | Except.ok cts => (Except.ok cts, s1, log ++ [Req.encryptBatchReq batchInput])

/-- The `batch_results.forEach` of `decryptBatch`: walk the engine results
in lockstep with the recorded vault entries, throwing on the first per-item
error, scattering each decrypted payload back to its recorded position
(reading past the end of `vaultEntries` is a JS `TypeError`). -/
def scatterDecrypt (C : Codec) : List (Nat × String) → List BatchItem →
    List (Option String) → Except String (List (Option String))
  | _, [], res => Except.ok res
  | _, BatchItem.err m :: _, _ =>
      Except.error ("Vault batch decrypt error: " ++ m)
  | [], BatchItem.ok _ :: _, _ =>
      Except.error "TypeError: Cannot read properties of undefined"
  | (idx, _) :: es, BatchItem.ok p64 :: rest, res =>
      scatterDecrypt C es rest (res.set idx (some (C.dec64 p64)))

/-- The `ciphertexts.forEach` filter of `decryptBatch`, with its running
index: push every envelope-marked entry together with its position. -/
def vaultEntriesFrom : Nat → List String → List (Nat × String)
  | _, [] => []
  | n, ct :: rest =>
    if isVaultStr ct then (n, ct) :: vaultEntriesFrom (n + 1) rest
    else vaultEntriesFrom (n + 1) rest

/-- The envelope-marked entries of a batch, paired with their original
positions, in order (the `vaultEntries` array of `decryptBatch`). -/
def vaultEntries (cts : List String) : List (Nat × String) :=
  vaultEntriesFrom 0 cts

/-- `VaultClient.decryptBatch`: passthrough when unconfigured; otherwise
ensure a token, short-circuit non-envelope entries locally into a result
array, and — only when at least one envelope entry exists — send the
envelope entries as one batched request and scatter the results back. -/
def decryptBatch (E : Engine) (C : Codec) (now : Int) (s : ClientState)
    (cts : List String) : OpResult (List (Option String)) :=
  if !s.configured then (Except.ok (cts.map some), s, [])
  else
    match ensureToken E now s with
    | (Except.error e, s1, log) => (Except.error e, s1, log)
    | (Except.ok _, s1, log) =>
      let entries := vaultEntries cts
      let res0 : List (Option String) :=
        cts.map (fun ct => if isVaultStr ct then none else some ct)
      if entries.isEmpty then (Except.ok res0, s1, log)
      else
        let batchInput := entries.map (fun p => p.2)
        match E.decryptBatch batchInput with
        | Except.error e =>
            (Except.error e, s1, log ++ [Req.decryptBatchReq batchInput])
        | Except.ok rs =>
          match scatterDecrypt C entries rs res0 with
          | Except.error e =>
              (Except.error e, s1, log ++ [Req.decryptBatchReq batchInput])
          | Except.ok out =>
              (Except.ok out, s1, log ++ [Req.decryptBatchReq batchInput])

/-- `VaultClient.rewrap`: ensure a token (note: no `configured` guard, unlike
the four operations above), then ask the engine to rewrap the ciphertext. -/
def rewrap (E : Engine) (now : Int) (s : ClientState)
    (ciphertext : String) : OpResult String :=
  match ensureToken E now s with
  | (Except.error e, s1, log) => (Except.error e, s1, log)
  | (Except.ok _, s1, log) =>
    match E.rewrap ciphertext with
    | Except.error e => (Except.error e, s1, log ++ [Req.rewrapReq ciphertext])
    | Except.ok ct => (Except.ok ct, s1, log ++ [Req.rewrapReq ciphertext])

/-! ## Field codec (api/services/piiEncryption.js) -/

/-- A JS value stored in a record field: a string, or any non-string value
(numbers, objects, `null`, `undefined` — the code only ever tests
`typeof value === 'string'`, so these are indistinguishable here). -/
inductive JVal where
  | str (s : String)
  | nonStr
  deriving DecidableEq, Repr

/-- A record (Mongoose document) as an ordered association list of fields;
absent fields are simply not bound. -/
abbrev Doc := List (String × JVal)

/-- JS property read `doc[field]`. -/
def Doc.get : Doc → String → Option JVal
  | [], _ => none
  | (g, w) :: rest, f => if g = f then some w else Doc.get rest f

/-- JS property write `doc[field] = v`: replace the existing binding in
place, or append a new one. -/
def Doc.set : Doc → String → JVal → Doc
  | [], f, v => [(f, v)]
  | (g, w) :: rest, f, v =>
      if g = f then (f, v) :: rest else (g, w) :: Doc.set rest f v

/-- The per-field selection test of `encryptPII`: a field is collected when
its value exists, is a string, and does not already start with the
envelope marker. -/
def encable (doc : Doc) (f : String) : Option (String × String) :=
  match Doc.get doc f with
  | some (JVal.str v) =>
      if (v != "") && !(strStartsWith v "vault:") then some (f, v) else none
  | _ => none

/-- The selection loop of `encryptPII`: the (field, value) pairs to
encrypt, in field order. -/
def encryptablePairs (doc : Doc) (fields : List String) : List (String × String) :=
  fields.filterMap (encable doc)

/-- The write-back loop of `encryptPII`: `doc[fieldNames[i]] = ciphertexts[i]`. -/
def writeBack : Doc → List String → List String → Doc
  | d, [], _ => d
  | d, _ :: _, [] => d
  | d, f :: fs, c :: cs => writeBack (Doc.set d f (JVal.str c)) fs cs

/-- `encryptPII`: collect the encryptable fields; when none, return without
touching the client; otherwise batch-encrypt the values and write the
ciphertexts back onto the same field names. -/
def encryptPII (E : Engine) (C : Codec) (now : Int) (s : ClientState)
    (doc : Doc) (fields : List String) : Except String Doc × ClientState × List Req :=
  let pairs := encryptablePairs doc fields
  if pairs.isEmpty then (Except.ok doc, s, [])
  else
    match encryptBatch E C now s (pairs.map (fun p => p.2)) with
    | (Except.error e, s1, log) => (Except.error e, s1, log)
    | (Except.ok cts, s1, log) =>
        (Except.ok (writeBack doc (pairs.map (fun p => p.1)) cts), s1, log)

/-! ## Rewrap orchestrator (rewrapCollection / _rewrapBatch)

The orchestrator takes the Vault client and the record store as external
collaborators; here they are abstracted into an environment: the behaviour
of `vault.rewrap` and of `doc.save()` (persistence may fail per document).
A run returns the promise outcome (the `processed` count on success) and
the list of successful persisted writes `(document index, saved document)`,
in order. -/

structure RewrapEnv where
  rewrapFn : String → Except String String
  saveFn : Nat → Doc → Except String Unit

/-- The envelope test of `_rewrapBatch` on one field of a document. -/
def envField (d : Doc) (f : String) : Bool :=
  match Doc.get d f with
  | some (JVal.str v) => isVaultStr v
  | _ => false

/-- The string value a field holds (meaningful when `envField` is true). -/
def strVal (d : Doc) (f : String) : String :=
  match Doc.get d f with
  | some (JVal.str v) => v
  | _ => ""

/-- The `for (const field of fields)` loop of `_rewrapBatch` on one
document: rewrap every envelope-marked string field in order, recording
whether anything was rewrapped; a rewrap rejection aborts the document. -/
def rewrapFields (env : RewrapEnv) : Doc → List String → Except String (Doc × Bool)
  | d, [] => Except.ok (d, false)
  | d, f :: rest =>
    if envField d f then
      match env.rewrapFn (strVal d f) with
      | Except.error e => Except.error e
      | Except.ok v1 =>
          (rewrapFields env (Doc.set d f (JVal.str v1)) rest).map
            (fun p => (p.1, true))
    else rewrapFields env d rest

/-- Processing of one document inside `_rewrapBatch`: rewrap its fields and,
when anything changed, persist it (`doc.save()`).  Returns the promise
outcome and the successful writes (empty or one). -/
def processDoc (env : RewrapEnv) (fields : List String) (idx : Nat)
    (d : Doc) : Except String Unit × List (Nat × Doc) :=
  match rewrapFields env d fields with
  | Except.error e => (Except.error e, [])
  | Except.ok (d1, changed) =>
    if changed then
      match env.saveFn idx d1 with
      | Except.error e => (Except.error e, [])
      | Except.ok _ => (Except.ok (), [(idx, d1)])
    else (Except.ok (), [])

/-- First-rejection-wins aggregation of `Promise.all`. -/
def firstErr : Except String Unit → Except String Unit → Except String Unit
  | Except.error e, _ => Except.error e
  | Except.ok _, r => r

/-- `_rewrapBatch`: process every document of the batch (under `Promise.all`
each per-document task runs to completion even when another rejects); the
batch rejects when any document rejected. -/
def rewrapBatch (env : RewrapEnv) (fields : List String) :
    List (Nat × Doc) → Except String Unit × List (Nat × Doc)
  | [] => (Except.ok (), [])
  | (idx, d) :: rest =>
    let r := processDoc env fields idx d
    let r1 := rewrapBatch env fields rest
    (firstErr r.1 r1.1, r.2 ++ r1.2)

/-- The cursor loop of `rewrapCollection`: accumulate documents into a
batch, flush each time the batch reaches `batchSize`, flush the remainder
at the end, and return the number of processed documents.  A batch
rejection propagates immediately and aborts the run. -/
def collectLoop (env : RewrapEnv) (fields : List String) (batchSize : Nat) :
    List (Nat × Doc) → List (Nat × Doc) → Nat → Except String Nat × List (Nat × Doc)
  | [], batch, processed =>
    if batch.isEmpty then (Except.ok processed, [])
    else
      match rewrapBatch env fields batch with
      | (Except.error e, w) => (Except.error e, w)
      | (Except.ok _, w) => (Except.ok (processed + batch.length), w)
  | d :: rest, batch, processed =>
    if batchSize ≤ (batch ++ [d]).length then
      match rewrapBatch env fields (batch ++ [d]) with
      | (Except.error e, w) => (Except.error e, w)
      | (Except.ok _, w) =>
        ((collectLoop env fields batchSize rest [] (processed + (batch ++ [d]).length)).1,
         w ++ (collectLoop env fields batchSize rest [] (processed + (batch ++ [d]).length)).2)
    else collectLoop env fields batchSize rest (batch ++ [d]) processed

/-- `rewrapCollection`: stream the whole record store through the batch
loop and return the processed count. -/
def rewrapCollection (env : RewrapEnv) (fields : List String)
    (batchSize : Nat) (store : List Doc) : Except String Nat × List (Nat × Doc) :=
  collectLoop env fields batchSize store.enum [] 0

/-! ## Concrete instances used to instantiate the theorems -/

/-- A codec whose encode and decode are the identity (simplest concrete
instantiation of the abstract base64 codec). -/
def idCodec : Codec := { enc64 := fun x => x, dec64 := fun x => x }

/-- A well-behaved engine: login succeeds with a one-hour lease, batch
operations answer one fixed payload per input item, rewrap is the
identity. -/
def demoEngine : Engine :=
  { login := fun _ _ => Except.ok ("tok", 3600)
    encryptOne := fun p => Except.ok ("vault:v1:" ++ p)
    decryptOne := fun _ => Except.ok "PT"
    encryptBatch := fun ps => Except.ok (ps.map (fun _ => BatchItem.ok "vault:v1:CT"))
    decryptBatch := fun cs => Except.ok (cs.map (fun _ => BatchItem.ok "PT"))
    rewrap := fun c => Except.ok c }

/-- An engine whose login endpoint rejects (HTTP 400). -/
def badLoginEngine : Engine :=
  { demoEngine with
    login := fun _ _ => Except.error "Vault error 400: invalid role or secret ID" }

/-- An engine whose batch encrypt reports a per-item failure on the FIRST
item and a successful ciphertext for the second. -/
def failFirstEngine : Engine :=
  { demoEngine with
    encryptBatch := fun _ => Except.ok [BatchItem.err "boom", BatchItem.ok "c1"] }

/-- An engine whose batch encrypt reports a per-item failure on the SECOND
item and a successful ciphertext for the first. -/
def failSecondEngine : Engine :=
  { demoEngine with
    encryptBatch := fun _ => Except.ok [BatchItem.ok "c0", BatchItem.err "boom"] }

/-- A statically configured client (`VAULT_TOKEN` set). -/
def staticClient : ClientState := mkClient (some "tok") none none

/-- An AppRole-configured client (role id and secret id set). -/
def roleClient : ClientState := mkClient none (some "role") (some "secret")

/-- An unconfigured client (no token, no AppRole credentials). -/
def noneClient : ClientState := mkClient none none none

/-- Orchestrator environment in which rewrap returns the ciphertext
unchanged (no key rotation since the last run) and saving succeeds. -/
def idEnv : RewrapEnv :=
  { rewrapFn := fun c => Except.ok c, saveFn := fun _ _ => Except.ok () }

/-- Orchestrator environment in which rewrap fails on one specific
ciphertext and succeeds (identically) on every other. -/
def badRewrapEnv : RewrapEnv :=
  { rewrapFn := fun c => if c = "vault:v1:BAD" then Except.error "boom" else Except.ok c
    saveFn := fun _ _ => Except.ok () }

/-! ## General lemmas about the embedded operations -/

/-- Every request issued by `_ensureToken` is a login request. -/
theorem ensureToken_log_login (E : Engine) (now : Int) (s : ClientState) :
    ∀ q ∈ (ensureToken E now s).2.2, ∃ a b, q = Req.login a b := by
  unfold ensureToken authenticate
  split
  · intro q hq; simp at hq
  · split
    · cases hL : E.login s.roleId s.secretId with
      | error e => intro q hq; simp [hL] at hq; exact ⟨_, _, hq⟩
      | ok p => intro q hq; simp [hL] at hq; exact ⟨_, _, hq⟩
    · intro q hq; simp at hq

/-- `_ensureToken` either does nothing or issues exactly one login request. -/
theorem ensureToken_shape (E : Engine) (now : Int) (s : ClientState) :
    ensureToken E now s = (Except.ok (), s, [])
    ∨ ∃ r s1, ensureToken E now s = (r, s1, [Req.login s.roleId s.secretId]) := by
  unfold ensureToken authenticate
  split
  · exact Or.inl rfl
  · split
    · cases hL : E.login s.roleId s.secretId with
      | error e => exact Or.inr ⟨Except.error e, s, by simp [hL]⟩
      | ok p =>
        exact Or.inr ⟨Except.ok (),
          { s with token := some p.1,
                   tokenExpiry := Expiry.time (now + (p.2 - 300) * 1000) },
          by simp [hL]⟩
    · exact Or.inl rfl

/-- When no entry carries the envelope marker, the `vaultEntries` array is
empty, wherever the running index starts. -/
theorem vaultEntriesFrom_eq_nil :
    ∀ (cts : List String) (n : Nat),
      (∀ ct ∈ cts, isVaultStr ct = false) → vaultEntriesFrom n cts = [] := by
  intro cts
  induction cts with
  | nil => intro n hv; rfl
  | cons ct rest ih =>
    intro n hv
    have h1 := hv ct (by simp)
    have h2 : ∀ c ∈ rest, isVaultStr c = false := fun c hc => hv c (by simp [hc])
    simpa [vaultEntriesFrom, h1] using ih (n + 1) h2

/-- `rewrap` always issues at least one network request, whatever the
session state: there is no unconfigured passthrough guard on it. -/
theorem rewrap_log_ne_nil (E : Engine) (now : Int) (s : ClientState) (ct : String) :
    (rewrap E now s ct).2.2 ≠ [] := by
  rcases ensureToken_shape E now s with h | ⟨r, s1, h⟩
  · unfold rewrap
    rw [h]
    cases hR : E.rewrap ct <;> simp [hR]
  · unfold rewrap
    rw [h]
    cases r with
    | error e => simp
    | ok u => cases hR : E.rewrap ct <;> simp [hR]

/-! ## Claim C1 -/

/-- C1, counterexample: on an unconfigured session, `rewrap` does NOT
return its input unchanged — it attempts an AppRole login round trip
(an engine request with the unset credentials) and rejects with the
engine's error, because `rewrap` lacks the `configured` passthrough guard
the other four operations have. -/
theorem claim1_cex :
    rewrap badLoginEngine 0 noneClient "vault:v1:AAA"
      = (Except.error "Vault error 400: invalid role or secret ID", noneClient,
         [Req.login none none]) := by
  rfl

/-- C1 (amended): when the session is unconfigured, `encrypt`, `decrypt`,
`encryptBatch` and `decryptBatch` return their input unchanged, never
reject, and perform no engine request; `rewrap`, however, has no such
guard and always issues at least one network request. -/
theorem claim1_thm (E : Engine) (C : Codec) (now : Int) (s : ClientState)
    (p ct : String) (vs : List String) (h : s.configured = false) :
    encrypt E C now s p = (Except.ok p, s, [])
    ∧ decrypt E C now s p = (Except.ok p, s, [])
    ∧ encryptBatch E C now s vs = (Except.ok vs, s, [])
    ∧ decryptBatch E C now s vs = (Except.ok (vs.map some), s, [])
    ∧ (rewrap E now s ct).2.2 ≠ [] :=
  ⟨by simp [encrypt, h], by simp [decrypt, h], by simp [encryptBatch, h],
   by simp [decryptBatch, h], rewrap_log_ne_nil E now s ct⟩

/-- C1, witness: the amended theorem applied to the unconfigured client
and a concrete engine. -/
theorem claim1_wit :
    encrypt badLoginEngine idCodec 0 noneClient "p" = (Except.ok "p", noneClient, [])
    ∧ decrypt badLoginEngine idCodec 0 noneClient "p" = (Except.ok "p", noneClient, [])
    ∧ encryptBatch badLoginEngine idCodec 0 noneClient ["a"] = (Except.ok ["a"], noneClient, [])
    ∧ decryptBatch badLoginEngine idCodec 0 noneClient ["a"] = (Except.ok [some "a"], noneClient, [])
    ∧ (rewrap badLoginEngine 0 noneClient "vault:v1:AAA").2.2 ≠ [] :=
  claim1_thm badLoginEngine idCodec 0 noneClient "p" "vault:v1:AAA" ["a"] (by decide)

/-! ## Claim C5 -/

/-- C5, counterexample: `decrypt` does NOT check the envelope marker before
credential handling: on a configured AppRole session whose login fails, a
plain (non-envelope) input is not returned unchanged — the call issues a
login request first and rejects with the authentication error. -/
theorem claim5_cex :
    decrypt badLoginEngine idCodec 0 roleClient "hello"
      = (Except.error "Vault error 400: invalid role or secret ID", roleClient,
         [Req.login (some "role") (some "secret")]) := by
  rfl

/-- C5 (amended): `decrypt(p)` for non-envelope `p` returns `p` unchanged
and issues no decrypt request — but only after credential handling:
unconfigured sessions bypass everything, while configured sessions first
run `_ensureToken` (whose requests are all login requests) and only then
check the marker. -/
theorem claim5_thm (E : Engine) (C : Codec) (now : Int) (s : ClientState)
    (p : String) (hp : isVaultStr p = false) :
    (s.configured = false → decrypt E C now s p = (Except.ok p, s, []))
    ∧ (∀ s1 log, s.configured = true →
        ensureToken E now s = (Except.ok (), s1, log) →
        decrypt E C now s p = (Except.ok p, s1, log)
        ∧ ∀ q ∈ log, ∃ a b, q = Req.login a b) := by
  constructor
  · intro h; simp [decrypt, h]
  · intro s1 log hc he
    refine ⟨by simp [decrypt, hc, he, hp], ?_⟩
    intro q hq
    have hall := ensureToken_log_login E now s
    rw [he] at hall
    exact hall q hq

/-- C5, witness: the amended theorem applied to a static-token client,
where the credential check succeeds with no request. -/
theorem claim5_wit :
    decrypt demoEngine idCodec 0 staticClient "hello"
      = (Except.ok "hello", staticClient, []) :=
  ((claim5_thm demoEngine idCodec 0 staticClient "hello" (by decide)).2
    staticClient [] rfl rfl).1

/-! ## Claim C6 -/

/-- C6, counterexample: `encryptBatch` on an EMPTY batch does not perform
zero network calls — even on a static-token client (no auth round trip
needed) it still issues one batched engine request with an empty
`batch_input`. -/
theorem claim6_cex :
    (encryptBatch demoEngine idCodec 0 staticClient []).2.2
      = [Req.encryptBatchReq []]
    ∧ (encryptBatch demoEngine idCodec 0 staticClient []).2.2 ≠ [] := by
  refine ⟨rfl, ?_⟩
  intro h
  rw [show (encryptBatch demoEngine idCodec 0 staticClient []).2.2
      = [Req.encryptBatchReq []] from rfl] at h
  cases h

/-- C6 (amended): on a static-token client, `decryptBatch` of a list with
zero envelope entries performs zero network calls; `encryptBatch`,
however, always issues exactly one batched engine request — even for an
empty list. -/
theorem claim6_thm (E : Engine) (C : Codec) (now : Int) (s : ClientState)
    (cts : List String) (hc : s.configured = true)
    (hs : s.tokenExpiry = Expiry.inf)
    (hv : ∀ ct ∈ cts, isVaultStr ct = false) :
    decryptBatch E C now s cts = (Except.ok (cts.map some), s, [])
    ∧ (encryptBatch E C now s []).2.2 = [Req.encryptBatchReq []] := by
  have he : ensureToken E now s = (Except.ok (), s, []) := by
    unfold ensureToken
    simp [hs]
  constructor
  · have hent : vaultEntries cts = [] := vaultEntriesFrom_eq_nil cts 0 hv
    have hres : cts.map (fun ct => if isVaultStr ct then none else some ct)
        = cts.map some := by
      apply List.map_congr_left
      intro a ha
      simp [hv a ha]
    simp [decryptBatch, hc, he, hent, hres]
  · simp only [encryptBatch, hc, he]
    cases hE : E.encryptBatch ([].map C.enc64) with
    | error e => simp [hE]
    | ok rs =>
      cases hR : collectBatch "Vault batch encrypt error: " rs with
      | error e => simp [hE, hR]
      | ok cs => simp [hE, hR]

/-- C6, witness: the amended theorem applied to the static client with a
mixed non-envelope list. -/
theorem claim6_wit :
    decryptBatch demoEngine idCodec 0 staticClient ["a", "b"]
      = (Except.ok [some "a", some "b"], staticClient, [])
    ∧ (encryptBatch demoEngine idCodec 0 staticClient []).2.2
      = [Req.encryptBatchReq []] :=
  claim6_thm demoEngine idCodec 0 staticClient ["a", "b"] rfl rfl (by decide)

/-! ## Claim C8 -/

/-- C8 (confirmed): a static token never expires (the constructor marks it
`Infinity` and `_ensureToken` then returns immediately with no request);
in role mode a renewal round trip happens exactly when no credential is
held or the instant is at/after the stored expiry, and a successful
renewal stores the new token and sets the expiry to
`now + (lease_duration - 300) * 1000` milliseconds — a fixed 5-minute
safety margin. -/
theorem claim8_thm (E : Engine) (now : Int) (s : ClientState) :
    (∀ st rid sid, truthy st = true → (mkClient st rid sid).tokenExpiry = Expiry.inf)
    ∧ (s.tokenExpiry = Expiry.inf → ensureToken E now s = (Except.ok (), s, []))
    ∧ (s.tokenExpiry ≠ Expiry.inf → truthy s.token = true →
        expiryReached now s.tokenExpiry = false →
        ensureToken E now s = (Except.ok (), s, []))
    ∧ (∀ tok ttl, s.tokenExpiry ≠ Expiry.inf →
        (truthy s.token = false ∨ expiryReached now s.tokenExpiry = true) →
        E.login s.roleId s.secretId = Except.ok (tok, ttl) →
        ensureToken E now s =
          (Except.ok (),
           { s with token := some tok,
                    tokenExpiry := Expiry.time (now + (ttl - 300) * 1000) },
           [Req.login s.roleId s.secretId])) := by
  refine ⟨?_, ?_, ?_, ?_⟩
  · intro st rid sid h
    simp [mkClient, h]
  · intro h
    unfold ensureToken
    simp [h]
  · intro h1 h2 h3
    unfold ensureToken
    simp [h1, h2, h3]
  · intro tok ttl h1 h2 hL
    unfold ensureToken authenticate
    rcases h2 with h2 | h2 <;> simp [h1, h2, hL]

/-- C8, witness: on the freshly configured AppRole client (no token held),
`_ensureToken` performs the renewal and stores the margin-adjusted
expiry. -/
theorem claim8_wit :
    ensureToken demoEngine 0 roleClient =
      (Except.ok (),
       { roleClient with token := some "tok",
                         tokenExpiry := Expiry.time ((0 : Int) + (3600 - 300) * 1000) },
       [Req.login (some "role") (some "secret")]) :=
  (claim8_thm demoEngine 0 roleClient).2.2.2 "tok" 3600 (by decide)
    (Or.inl (by decide)) rfl

/-! ## Claims C2, C3, C7 -/

/-- The `batch_results.map` throws on the FIRST entry with an `error`
field: all payloads before it are discarded and the message carries only
the engine's per-item error text. -/
theorem collectBatch_first_err (head m : String) (pre : List String)
    (post : List BatchItem) :
    collectBatch head (pre.map BatchItem.ok ++ BatchItem.err m :: post)
      = Except.error (head ++ m) := by
  induction pre with
  | nil => rfl
  | cons c cs ih => simp [collectBatch, ih, Except.map]

/-- The decrypt scatter loop likewise throws on the first `error` entry,
for any accumulated results. -/
theorem scatterDecrypt_first_err (C : Codec) (m : String) :
    ∀ (pre : List String) (entries : List (Nat × String)) (post : List BatchItem)
      (res : List (Option String)), pre.length ≤ entries.length →
      scatterDecrypt C entries (pre.map BatchItem.ok ++ BatchItem.err m :: post) res
        = Except.error ("Vault batch decrypt error: " ++ m) := by
  intro pre
  induction pre with
  | nil =>
    intro entries post res h
    cases entries <;> rfl
  | cons p ps ih =>
    intro entries post res h
    cases entries with
    | nil => simp at h
    | cons e es =>
      obtain ⟨idx, v⟩ := e
      simp only [List.map_cons, List.cons_append, scatterDecrypt]
      exact ih es post _ (by simpa using h)

/-- C2, counterexample: two engines that differ only in WHICH batch item
failed (first vs second) produce byte-identical client outcomes, so the
surfaced error cannot identify the failing item; moreover the successful
item's ciphertext (`"c1"` / `"c0"`) appears nowhere — the whole batch call
rejects and all successful results are discarded. -/
theorem claim2_cex :
    encryptBatch failFirstEngine idCodec 0 staticClient ["a", "b"]
      = encryptBatch failSecondEngine idCodec 0 staticClient ["a", "b"]
    ∧ (encryptBatch failFirstEngine idCodec 0 staticClient ["a", "b"]).1
      = Except.error "Vault batch encrypt error: boom" :=
  ⟨rfl, rfl⟩

/-- C2 (amended): a per-item failure inside a batch response makes the
whole batch call reject with an error carrying the FIRST failing item's
engine error message — but not the item's position — and no results at
all are returned, so the successful items' results are discarded (though
not silently: the caller sees the error). -/
theorem claim2_thm (E : Engine) (C : Codec) (now : Int) (s s1 : ClientState)
    (log : List Req) (hc : s.configured = true)
    (he : ensureToken E now s = (Except.ok (), s1, log)) :
    (∀ (values pre : List String) (m : String) (post : List BatchItem),
        E.encryptBatch (values.map C.enc64)
          = Except.ok (pre.map BatchItem.ok ++ BatchItem.err m :: post) →
        encryptBatch E C now s values
          = (Except.error ("Vault batch encrypt error: " ++ m), s1,
             log ++ [Req.encryptBatchReq (values.map C.enc64)]))
    ∧ (∀ (cts pre : List String) (m : String) (post : List BatchItem),
        (vaultEntries cts).isEmpty = false →
        pre.length ≤ (vaultEntries cts).length →
        E.decryptBatch ((vaultEntries cts).map (fun p => p.2))
          = Except.ok (pre.map BatchItem.ok ++ BatchItem.err m :: post) →
        decryptBatch E C now s cts
          = (Except.error ("Vault batch decrypt error: " ++ m), s1,
             log ++ [Req.decryptBatchReq ((vaultEntries cts).map (fun p => p.2))])) := by
  constructor
  · intro values pre m post hE
    simp [encryptBatch, hc, he, hE, collectBatch_first_err]
  · intro cts pre m post hne hlen hE
    have hsc := scatterDecrypt_first_err C m pre (vaultEntries cts) post
      (cts.map (fun ct => if isVaultStr ct then none else some ct)) hlen
    simp [decryptBatch, hc, he, hne, hE, hsc]

/-- C2, witness: the amended theorem applied to the engine failing on the
first item of a two-item batch. -/
theorem claim2_wit :
    encryptBatch failFirstEngine idCodec 0 staticClient ["a", "b"]
      = (Except.error "Vault batch encrypt error: boom", staticClient,
         [Req.encryptBatchReq ["a", "b"]]) :=
  (claim2_thm failFirstEngine idCodec 0 staticClient staticClient [] rfl rfl).1
    ["a", "b"] [] "boom" [BatchItem.ok "c1"] rfl

/-- Success of the batch loop implies every streamed record was processed:
the count returned on success is `processed + batch.length + remaining`. -/
theorem collectLoop_ok_length (env : RewrapEnv) (fields : List String)
    (batchSize : Nat) :
    ∀ (l batch : List (Nat × Doc)) (processed n : Nat) (w : List (Nat × Doc)),
      collectLoop env fields batchSize l batch processed = (Except.ok n, w) →
      n = processed + batch.length + l.length := by
  intro l
  induction l with
  | nil =>
    intro batch processed n w h
    unfold collectLoop at h
    split at h
    · next hemp =>
      simp only [Prod.mk.injEq, Except.ok.injEq] at h
      have hb : batch = [] := List.isEmpty_iff.mp hemp
      simp [hb, h.1.symm]
    · split at h
      · simp at h
      · simp only [Prod.mk.injEq, Except.ok.injEq] at h
        simp [h.1.symm]
  | cons d rest ih =>
    intro batch processed n w h
    unfold collectLoop at h
    split at h
    · split at h
      · simp at h
      · simp only [Prod.mk.injEq] at h
        obtain ⟨h1, h2⟩ := h
        rcases hr : collectLoop env fields batchSize rest []
            (processed + (batch ++ [d]).length) with ⟨r1, w2⟩
        rw [hr] at h1
        have hn := ih [] (processed + (batch ++ [d]).length) n w2 (by rw [hr, ← h1])
        have hL : (batch ++ [d]).length = batch.length + 1 := by simp
        rw [hL] at hn
        simp only [List.length_nil, List.length_cons] at hn ⊢
        omega
    · have hn := ih (batch ++ [d]) processed n w h
      have hL : (batch ++ [d]).length = batch.length + 1 := by simp
      rw [hL] at hn
      simp only [List.length_cons] at hn ⊢
      omega

/-- C3, counterexample: with batch size 1, a store of two records whose
first record's rewrap fails: the run rejects with the rewrap error, the
healthy second record is never rewrapped or saved (no writes at all), and
no success count or failure list is returned — the whole run aborts for
one bad record. -/
theorem claim3_cex :
    rewrapCollection badRewrapEnv ["email"] 1
        [[("email", JVal.str "vault:v1:BAD")], [("email", JVal.str "vault:v1:OK")]]
      = (Except.error "boom", []) := by
  rfl

/-- C3 (amended): the orchestrator is all-or-nothing per run, not
per-record: a success count is returned only when every streamed record
was processed (the count always equals the store size), and a failing
record in the first batch makes the whole run reject with that error —
later records are never reached and no failure list is produced. -/
theorem claim3_thm (env : RewrapEnv) (fields : List String) (store : List Doc) :
    (∀ batchSize n w,
        rewrapCollection env fields batchSize store = (Except.ok n, w) →
        n = store.length)
    ∧ (∀ d rest e w,
        processDoc env fields 0 d = (Except.error e, w) →
        rewrapCollection env fields 1 (d :: rest) = (Except.error e, w)) := by
  constructor
  · intro batchSize n w h
    have := collectLoop_ok_length env fields batchSize store.enum [] 0 n w h
    simpa [List.enum_length] using this
  · intro d rest e w hp
    have hb : rewrapBatch env fields [(0, d)] = (Except.error e, w) := by
      simp [rewrapBatch, hp, firstErr]
    simp [rewrapCollection, List.enum_cons, collectLoop, hb]

/-- C3, witness: a fully successful run over a one-record store returns a
count equal to the store size. -/
theorem claim3_wit :
    (1 : Nat) = ([[("email", JVal.str "vault:v1:AAA")]] : List Doc).length :=
  (claim3_thm idEnv ["email"] [[("email", JVal.str "vault:v1:AAA")]]).1
    100 1 [(0, [("email", JVal.str "vault:v1:AAA")])] rfl

/-- Rewrapping the fields of a record with no envelope-marked field leaves
the record untouched and reports no change. -/
theorem rewrapFields_no_env (env : RewrapEnv) :
    ∀ (fields : List String) (d : Doc),
      (∀ f ∈ fields, envField d f = false) →
      rewrapFields env d fields = Except.ok (d, false) := by
  intro fields
  induction fields with
  | nil => intro d h; rfl
  | cons f fs ih =>
    intro d h
    have hf := h f (by simp)
    have hrest : ∀ g ∈ fs, envField d g = false := fun g hg => h g (by simp [hg])
    simpa [rewrapFields, hf] using ih d hrest

/-- On success, the `changed` flag of the per-record rewrap loop is true
exactly when some field of the ORIGINAL record held an envelope. -/
theorem rewrapFields_changed_iff (env : RewrapEnv) :
    ∀ (fields : List String) (d d1 : Doc) (c : Bool),
      rewrapFields env d fields = Except.ok (d1, c) →
      (c = true ↔ ∃ f ∈ fields, envField d f = true) := by
  intro fields
  induction fields with
  | nil =>
    intro d d1 c h
    unfold rewrapFields at h
    simp only [Except.ok.injEq, Prod.mk.injEq] at h
    simp [← h.2]
  | cons f fs ih =>
    intro d d1 c h
    unfold rewrapFields at h
    by_cases hf : envField d f
    · rw [if_pos hf] at h
      split at h
      · simp at h
      · next v1 hr =>
        cases hrf : rewrapFields env (Doc.set d f (JVal.str v1)) fs with
        | error e => rw [hrf] at h; simp [Except.map] at h
        | ok p =>
          rw [hrf] at h
          simp only [Except.map, Except.ok.injEq, Prod.mk.injEq] at h
          have hc : c = true := h.2.symm
          exact ⟨fun _ => ⟨f, by simp, hf⟩, fun _ => hc⟩
    · rw [if_neg hf] at h
      have hiff := ih d d1 c h
      rw [hiff]
      have hfb : envField d f = false := by simpa using hf
      simp [hfb]

/-- C7, counterexample: a one-record store whose single field is already
an envelope, with an engine that returns the ciphertext UNCHANGED (no key
rotation since the previous run — the most favourable case): re-running
the orchestrator still performs one write, not zero, because `changed` is
set whenever a field matches the envelope marker, not when its value
actually changed. -/
theorem claim7_cex :
    rewrapCollection idEnv ["email"] 100 [[("email", JVal.str "vault:v1:AAA")]]
      = (Except.ok 1, [(0, [("email", JVal.str "vault:v1:AAA")])])
    ∧ [(0, ([("email", JVal.str "vault:v1:AAA")] : Doc))] ≠ [] := by
  exact ⟨rfl, by simp⟩

/-- C7 (amended): a successful pass over one record persists the record if
and only if some field holds an envelope-marked value — presence of the
marker, not an actual value change, decides persistence — so a second run
over an already-rewrapped store writes every envelope-bearing record
again instead of performing zero writes. -/
theorem claim7_thm (env : RewrapEnv) (fields : List String) (idx : Nat)
    (d : Doc) (w : List (Nat × Doc))
    (h : processDoc env fields idx d = (Except.ok (), w)) :
    w.isEmpty = fields.all (fun f => !(envField d f)) := by
  unfold processDoc at h
  cases hrf : rewrapFields env d fields with
  | error e => rw [hrf] at h; simp at h
  | ok p =>
    rw [hrf] at h
    obtain ⟨d1, c⟩ := p
    have hiff := rewrapFields_changed_iff env fields d d1 c hrf
    by_cases hc : c = true
    · rw [hc] at h
      simp only [if_pos] at h
      cases hs : env.saveFn idx d1 with
      | error e => rw [hs] at h; simp at h
      | ok u =>
        rw [hs] at h
        simp only [Prod.mk.injEq] at h
        have hw : w = [(idx, d1)] := h.2.symm
        obtain ⟨f, hf, henv⟩ := hiff.mp hc
        have hallf : fields.all (fun f => !(envField d f)) = false := by
          rw [List.all_eq_false]
          exact ⟨f, hf, by simp [henv]⟩
        simp [hw, hallf]
    · have hcf : c = false := by simpa using hc
      rw [hcf] at h
      simp only [Bool.false_eq_true, if_false] at h
      simp only [Prod.mk.injEq] at h
      have hw : w = [] := h.2.symm
      have hall : fields.all (fun f => !(envField d f)) = true := by
        rw [List.all_eq_true]
        intro f hf
        by_contra hne
        exact hc (hiff.mpr ⟨f, hf, by simpa using hne⟩)
      simp [hw, hall]

/-- C7, witness: the amended theorem evaluated on the already-rewrapped
record of the counterexample: the write list is not empty because the
field still matches the envelope marker. -/
theorem claim7_wit :
    ([(0, ([("email", JVal.str "vault:v1:AAA")] : Doc))] : List (Nat × Doc)).isEmpty
      = (["email"].all (fun f => !(envField [("email", JVal.str "vault:v1:AAA")] f))) :=
  claim7_thm idEnv ["email"] 0 [("email", JVal.str "vault:v1:AAA")]
    [(0, [("email", JVal.str "vault:v1:AAA")])] rfl

/-! ## Claims C9 and C10 -/

/-- Reading the field just written. -/
theorem Doc.get_set_eq : ∀ (d : Doc) (f : String) (v : JVal),
    Doc.get (Doc.set d f v) f = some v := by
  intro d f v
  induction d with
  | nil => simp [Doc.set, Doc.get]
  | cons hd tl ih =>
    obtain ⟨g, w⟩ := hd
    by_cases hg : g = f
    · simp [Doc.set, hg, Doc.get]
    · simp [Doc.set, hg, Doc.get, ih]

/-- Writing one field leaves every other field unchanged. -/
theorem Doc.get_set_ne : ∀ (d : Doc) (f g : String) (v : JVal), g ≠ f →
    Doc.get (Doc.set d f v) g = Doc.get d g := by
  intro d f g v hne
  induction d with
  | nil => simp [Doc.set, Doc.get, Ne.symm hne]
  | cons hd tl ih =>
    obtain ⟨h1, w⟩ := hd
    by_cases hh : h1 = f
    · subst hh
      simp [Doc.set, Doc.get, Ne.symm hne]
    · simp [Doc.set, hh, Doc.get, ih]

/-- The write-back loop does not touch fields outside its name list. -/
theorem writeBack_get_not_mem :
    ∀ (fs cs : List String) (d : Doc) (g : String),
      g ∉ fs → Doc.get (writeBack d fs cs) g = Doc.get d g := by
  intro fs
  induction fs with
  | nil => intro cs d g _; cases cs <;> rfl
  | cons f fs1 ih =>
    intro cs d g hg
    cases cs with
    | nil => rfl
    | cons c cs1 =>
      have hgf : g ≠ f := fun h => hg (by simp [h])
      have hgfs : g ∉ fs1 := fun h => hg (by simp [h])
      calc Doc.get (writeBack (Doc.set d f (JVal.str c)) fs1 cs1) g
          = Doc.get (Doc.set d f (JVal.str c)) g := ih cs1 _ g hgfs
        _ = Doc.get d g := Doc.get_set_ne d f g _ hgf

/-- After the write-back loop, every written field holds one of the
ciphertexts (when the two lists have equal length). -/
theorem writeBack_get_mem :
    ∀ (fs cs : List String) (d : Doc) (g : String),
      fs.length = cs.length → g ∈ fs →
      ∃ c ∈ cs, Doc.get (writeBack d fs cs) g = some (JVal.str c) := by
  intro fs
  induction fs with
  | nil => intro cs d g _ hg; cases hg
  | cons f fs1 ih =>
    intro cs d g hlen hg
    cases cs with
    | nil => simp at hlen
    | cons c cs1 =>
      by_cases hgm : g ∈ fs1
      · obtain ⟨c1, hc1, hget⟩ := ih cs1 (Doc.set d f (JVal.str c)) g (by simpa using hlen) hgm
        exact ⟨c1, by simp [hc1], hget⟩
      · have hgf : g = f := by
          rcases List.mem_cons.mp hg with h | h
          · exact h
          · exact absurd h hgm
        subst hgf
        refine ⟨c, by simp, ?_⟩
        calc Doc.get (writeBack (Doc.set d g (JVal.str c)) fs1 cs1) g
            = Doc.get (Doc.set d g (JVal.str c)) g := writeBack_get_not_mem fs1 cs1 _ g hgm
          _ = some (JVal.str c) := Doc.get_set_eq d g _

/-- A successful `batch_results.map` means every entry was a payload, in
order. -/
theorem collectBatch_ok (head : String) :
    ∀ (rs : List BatchItem) (cs : List String),
      collectBatch head rs = Except.ok cs → rs = cs.map BatchItem.ok := by
  intro rs
  induction rs with
  | nil =>
    intro cs h
    simp only [collectBatch, Except.ok.injEq] at h
    simp [← h]
  | cons r rest ih =>
    intro cs h
    cases r with
    | err m => simp [collectBatch] at h
    | ok c =>
      simp only [collectBatch] at h
      cases hr : collectBatch head rest with
      | error e => rw [hr] at h; simp [Except.map] at h
      | ok cs1 =>
        rw [hr] at h
        simp only [Except.map, Except.ok.injEq] at h
        rw [← h]
        simp [ih cs1 hr]

/-- Inversion of a successful configured `encryptBatch` call: the token was
ensured, one batched request was issued, and the returned ciphertexts are
exactly the engine's payloads. -/
theorem encryptBatch_ok_inv (E : Engine) (C : Codec) (now : Int)
    (s s1 : ClientState) (values cts : List String) (log : List Req)
    (hc : s.configured = true)
    (h : encryptBatch E C now s values = (Except.ok cts, s1, log)) :
    ∃ log0, ensureToken E now s = (Except.ok (), s1, log0)
      ∧ E.encryptBatch (values.map C.enc64) = Except.ok (cts.map BatchItem.ok)
      ∧ log = log0 ++ [Req.encryptBatchReq (values.map C.enc64)] := by
  unfold encryptBatch at h
  rw [hc] at h
  simp only [Bool.not_true, Bool.false_eq_true, if_false] at h
  split at h
  · simp at h
  · rename_i u s0 log0 het
    split at h
    · simp at h
    · rename_i rs hE
      split at h
      · simp at h
      · rename_i cs hcb
        simp only [Prod.mk.injEq, Except.ok.injEq] at h
        obtain ⟨hcs, hs, hlog⟩ := h
        refine ⟨log0, ?_, ?_, hlog.symm⟩
        · rw [het, hs]
        · rw [hE, collectBatch_ok _ rs cs hcb, hcs]

/-- `encable` only looks at the field's value. -/
theorem encable_congr (doc doc1 : Doc) (f : String)
    (h : Doc.get doc1 f = Doc.get doc f) : encable doc1 f = encable doc f := by
  unfold encable
  rw [h]

/-- What a selected pair means. -/
theorem encable_eq_some (doc : Doc) (f : String) (pr : String × String)
    (h : encable doc f = some pr) :
    pr.1 = f ∧ Doc.get doc f = some (JVal.str pr.2)
      ∧ ((pr.2 != "") && !(strStartsWith pr.2 "vault:")) = true := by
  unfold encable at h
  split at h
  · rename_i v hgv
    split at h
    · rename_i hcond
      cases h
      exact ⟨rfl, hgv, hcond⟩
    · cases h
  · cases h

/-- An already-encrypted value is never selected. -/
theorem encable_vault_none (doc : Doc) (f : String) (v : String)
    (hg : Doc.get doc f = some (JVal.str v))
    (hv : strStartsWith v "vault:" = true) : encable doc f = none := by
  unfold encable
  rw [hg]
  simp [hv]

/-- C9 (confirmed): `encryptFields` is idempotent.  Whenever a first
application succeeds (against an engine that answers one envelope-marked
ciphertext per batch item, as Vault Transit does), the second application
finds every targeted field absent, non-string, or already carrying the
envelope marker, selects nothing, issues no request, and returns the
record unchanged. -/
theorem claim9_thm (E : Engine) (C : Codec) (now now2 : Int)
    (s s1 : ClientState) (doc doc1 : Doc) (fields : List String)
    (log : List Req)
    (hc : s.configured = true)
    (hlen : ∀ input rs, E.encryptBatch input = Except.ok rs →
        rs.length = input.length)
    (hpre : ∀ input rs c, E.encryptBatch input = Except.ok rs →
        BatchItem.ok c ∈ rs → strStartsWith c "vault:" = true)
    (h1 : encryptPII E C now s doc fields = (Except.ok doc1, s1, log)) :
    encryptPII E C now2 s1 doc1 fields = (Except.ok doc1, s1, []) := by
  have hmain : encryptablePairs doc1 fields = [] := by
    unfold encryptPII at h1
    by_cases hp : (encryptablePairs doc fields).isEmpty
    · rw [if_pos hp] at h1
      simp only [Prod.mk.injEq, Except.ok.injEq] at h1
      rw [← h1.1]
      exact List.isEmpty_iff.mp hp
    · rw [if_neg hp] at h1
      split at h1
      · simp at h1
      · rename_i cts sb logb heb
        simp only [Prod.mk.injEq, Except.ok.injEq] at h1
        obtain ⟨hdoc1, hs1, hlog⟩ := h1
        obtain ⟨log0, het, hE, hlogs⟩ :=
          encryptBatch_ok_inv E C now s sb
            ((encryptablePairs doc fields).map (fun p => p.2)) cts logb hc heb
        have hctslen : cts.length = (encryptablePairs doc fields).length := by
          have := hlen _ _ hE
          simpa using this
        have hctspre : ∀ c ∈ cts, strStartsWith c "vault:" = true := by
          intro c hmem
          exact hpre _ _ c hE (by simp [hmem])
        rw [← hdoc1]
        refine List.filterMap_eq_nil_iff.mpr ?_
        intro f hf
        by_cases hfm : f ∈ (encryptablePairs doc fields).map (fun p => p.1)
        · obtain ⟨c, hcmem, hget⟩ := writeBack_get_mem
            ((encryptablePairs doc fields).map (fun p => p.1)) cts doc f
            (by simp [hctslen]) hfm
          exact encable_vault_none _ f c hget (hctspre c hcmem)
        · have hsame : Doc.get (writeBack doc
              ((encryptablePairs doc fields).map (fun p => p.1)) cts) f
                = Doc.get doc f :=
            writeBack_get_not_mem _ cts doc f hfm
          rw [encable_congr doc
            (writeBack doc ((encryptablePairs doc fields).map (fun p => p.1)) cts)
            f hsame]
          cases hsel : encable doc f with
          | none => rfl
          | some pr =>
            have hpr1 := (encable_eq_some doc f pr hsel).1
            have hmem : pr ∈ encryptablePairs doc fields :=
              List.mem_filterMap.mpr ⟨f, hf, hsel⟩
            have hmapmem : f ∈ (encryptablePairs doc fields).map (fun p => p.1) := by
              rw [← hpr1]
              exact List.mem_map_of_mem _ hmem
            exact absurd hmapmem hfm
  simp [encryptPII, hmain]

/-- C9, witness: a concrete record whose one field is first encrypted to an
envelope; the second application returns it unchanged with no request. -/
theorem claim9_wit :
    encryptPII demoEngine idCodec 1 staticClient
        [("email", JVal.str "vault:v1:CT")] ["email"]
      = (Except.ok [("email", JVal.str "vault:v1:CT")], staticClient, []) :=
  claim9_thm demoEngine idCodec 0 1 staticClient staticClient
    [("email", JVal.str "a@b.com")] [("email", JVal.str "vault:v1:CT")]
    ["email"] [Req.encryptBatchReq ["a@b.com"]] rfl
    (by
      intro input rs h
      simp only [demoEngine, Except.ok.injEq] at h
      rw [← h]
      simp)
    (by
      intro input rs c h hmem
      simp only [demoEngine, Except.ok.injEq] at h
      rw [← h] at hmem
      obtain ⟨x, hx, hxe⟩ := List.mem_map.mp hmem
      cases hxe
      decide)
    rfl

/-- C10 (confirmed, implicit claim): the low-level `encrypt` has no
envelope guard — on a configured session a value already starting with
`vault:` is still sent to the engine's encrypt endpoint (base64-encoded),
and whatever envelope the engine answers (wrapping the old ciphertext:
double encryption) is returned as-is; skipping already-encrypted values
happens only in the field codec, whose selection excludes any field whose
value carries the marker. -/
theorem claim10_thm (E : Engine) (C : Codec) (now : Int) (s s1 : ClientState)
    (log : List Req) (p ct : String)
    (hp : strStartsWith p "vault:" = true)
    (hc : s.configured = true)
    (he : ensureToken E now s = (Except.ok (), s1, log))
    (hE : E.encryptOne (C.enc64 p) = Except.ok ct) :
    encrypt E C now s p = (Except.ok ct, s1, log ++ [Req.encryptOne (C.enc64 p)])
    ∧ ∀ (doc : Doc) (fields : List String) (f : String),
        Doc.get doc f = some (JVal.str p) →
        ∀ pr ∈ encryptablePairs doc fields, pr.1 ≠ f := by
  constructor
  · simp [encrypt, hc, he, hE]
  · intro doc fields f hget pr hpr heq
    obtain ⟨a, _, hsel⟩ := List.mem_filterMap.mp hpr
    obtain ⟨hpr1, hga, hcond⟩ := encable_eq_some doc a pr hsel
    have haf : a = f := by rw [← hpr1, heq]
    rw [haf, hget] at hga
    have hv : pr.2 = p := by
      cases hga
      rfl
    rw [hv, hp] at hcond
    simp at hcond

/-- C10, witness: encrypting an already-enveloped value on the static
client sends it to the engine and returns the doubly wrapped envelope. -/
theorem claim10_wit :
    encrypt demoEngine idCodec 0 staticClient "vault:v1:OLD"
      = (Except.ok "vault:v1:vault:v1:OLD", staticClient,
         [Req.encryptOne "vault:v1:OLD"]) :=
  (claim10_thm demoEngine idCodec 0 staticClient staticClient []
    "vault:v1:OLD" "vault:v1:vault:v1:OLD" (by decide) rfl rfl rfl).1

/-! ## Claim C4 -/

/-- Modelled from the spec's order-preservation wording (not from the
code): walk the inputs in their original order; an entry without the
envelope marker stays in place unchanged; an envelope entry is replaced
by the next decrypted payload of the batched response.  The
implementation's output is proved equal to this description. -/
def specScatterBack (C : Codec) : List String → List String → List (Option String)
  | [], _ => []
  | ct :: rest, ps =>
    if isVaultStr ct then
      match ps with
      | [] => none :: specScatterBack C rest []
      | p :: ps1 => some (C.dec64 p) :: specScatterBack C rest ps1
    else some ct :: specScatterBack C rest ps

/-- Shifting the starting index of the envelope filter shifts every
recorded position. -/
theorem vaultEntriesFrom_succ :
    ∀ (cts : List String) (n : Nat),
      vaultEntriesFrom (n + 1) cts
        = (vaultEntriesFrom n cts).map (fun p => (p.1 + 1, p.2)) := by
  intro cts
  induction cts with
  | nil => intro n; rfl
  | cons ct rest ih =>
    intro n
    by_cases hv : isVaultStr ct <;> simp [vaultEntriesFrom, hv, ih (n + 1)]

/-- Unfolding of the envelope filter on a cons cell. -/
theorem vaultEntries_cons (ct : String) (rest : List String) :
    vaultEntries (ct :: rest)
      = if isVaultStr ct then
          (0, ct) :: (vaultEntries rest).map (fun p => (p.1 + 1, p.2))
        else (vaultEntries rest).map (fun p => (p.1 + 1, p.2)) := by
  unfold vaultEntries
  by_cases hv : isVaultStr ct <;>
    simp [vaultEntriesFrom, hv, vaultEntriesFrom_succ]

/-- The scatter loop commutes with prepending an untouched cell when every
recorded position is shifted by one. -/
theorem scatterDecrypt_shift (C : Codec) :
    ∀ (items : List BatchItem) (entries : List (Nat × String))
      (res : List (Option String)) (x : Option String),
      scatterDecrypt C (entries.map (fun p => (p.1 + 1, p.2))) items (x :: res)
        = (scatterDecrypt C entries items res).map (fun out => x :: out) := by
  intro items
  induction items with
  | nil => intro entries res x; cases entries <;> rfl
  | cons r rest ih =>
    intro entries res x
    cases r with
    | err m => cases entries <;> rfl
    | ok p =>
      cases entries with
      | nil => rfl
      | cons e es =>
        obtain ⟨idx, v⟩ := e
        simp only [List.map_cons, scatterDecrypt, List.set]
        exact ih es (res.set idx (some (C.dec64 p))) x

/-- Refinement: when the engine answers one payload per envelope entry,
the implementation's scatter over the position-indexed entries produces
exactly the spec-side order-preserving output. -/
theorem scatter_spec (C : Codec) :
    ∀ (cts ps : List String),
      ps.length = (vaultEntries cts).length →
      scatterDecrypt C (vaultEntries cts) (ps.map BatchItem.ok)
          (cts.map (fun ct => if isVaultStr ct then none else some ct))
        = Except.ok (specScatterBack C cts ps) := by
  intro cts
  induction cts with
  | nil =>
    intro ps hlen
    have hps : ps = [] := List.length_eq_zero.mp (by simpa [vaultEntries, vaultEntriesFrom] using hlen)
    subst hps
    rfl
  | cons ct rest ih =>
    intro ps hlen
    rw [vaultEntries_cons] at hlen ⊢
    by_cases hv : isVaultStr ct
    · rw [if_pos hv] at hlen ⊢
      cases ps with
      | nil => simp at hlen
      | cons p ps1 =>
        simp only [List.map_cons, if_pos hv, scatterDecrypt, List.set]
        rw [scatterDecrypt_shift]
        rw [ih ps1 (by simpa using hlen)]
        simp [specScatterBack, hv, Except.map]
    · rw [if_neg hv] at hlen ⊢
      simp only [List.map_cons, if_neg hv]
      rw [scatterDecrypt_shift]
      rw [ih ps (by simpa using hlen)]
      simp [specScatterBack, hv, Except.map]

/-- The spec-side output always has one cell per input. -/
theorem specScatterBack_length (C : Codec) :
    ∀ (cts ps : List String), (specScatterBack C cts ps).length = cts.length := by
  intro cts
  induction cts with
  | nil => intro ps; rfl
  | cons ct rest ih =>
    intro ps
    by_cases hv : isVaultStr ct
    · cases ps with
      | nil => simp [specScatterBack, hv, ih]
      | cons p ps1 => simp [specScatterBack, hv, ih]
    · simp [specScatterBack, hv, ih]

/-- C4 (confirmed): on a configured session, when the engine answers one
successful payload per envelope entry, `decryptBatch` returns a list of
the same length as its input in which every non-envelope entry sits
unchanged at its original position (never sent to the engine: the one
batched request carries exactly the envelope entries, and no request is
sent when there are none) and the decrypted payloads are scattered back
to the envelope entries' original positions in order. -/
theorem claim4_thm (E : Engine) (C : Codec) (now : Int) (s s1 : ClientState)
    (log : List Req) (cts payloads : List String)
    (hc : s.configured = true)
    (he : ensureToken E now s = (Except.ok (), s1, log))
    (hlen : payloads.length = (vaultEntries cts).length)
    (hE : E.decryptBatch ((vaultEntries cts).map (fun p => p.2))
        = Except.ok (payloads.map BatchItem.ok)) :
    decryptBatch E C now s cts
      = (Except.ok (specScatterBack C cts payloads), s1,
         log ++ (if (vaultEntries cts).isEmpty then []
                 else [Req.decryptBatchReq ((vaultEntries cts).map (fun p => p.2))]))
    ∧ (specScatterBack C cts payloads).length = cts.length := by
  constructor
  · have hspec := scatter_spec C cts payloads hlen
    by_cases hne : (vaultEntries cts).isEmpty
    · have hent : vaultEntries cts = [] := List.isEmpty_iff.mp hne
      have hps : payloads = [] := List.length_eq_zero.mp (by rw [hlen, hent]; rfl)
      subst hps
      rw [hent] at hspec
      simp only [List.map_nil, scatterDecrypt] at hspec
      have hres : cts.map (fun ct => if isVaultStr ct then none else some ct)
          = specScatterBack C cts [] := Except.ok.inj hspec
      simp [decryptBatch, hc, he, hne, hent, hres]
    · simp [decryptBatch, hc, he, hne, hE, hspec]
  · exact specScatterBack_length C cts payloads

/-- C4, witness: a mixed batch of two envelopes around one plaintext: the
plaintext is returned in the middle unchanged, the envelopes are
decrypted in place, and the single engine request carries only the two
envelopes. -/
theorem claim4_wit :
    decryptBatch demoEngine idCodec 0 staticClient
        ["vault:v1:AAA", "plain@b.com", "vault:v1:BBB"]
      = (Except.ok [some "PT", some "plain@b.com", some "PT"], staticClient,
         [Req.decryptBatchReq ["vault:v1:AAA", "vault:v1:BBB"]])
    ∧ (specScatterBack idCodec ["vault:v1:AAA", "plain@b.com", "vault:v1:BBB"]
        ["PT", "PT"]).length = 3 :=
  claim4_thm demoEngine idCodec 0 staticClient staticClient []
    ["vault:v1:AAA", "plain@b.com", "vault:v1:BBB"] ["PT", "PT"]
    rfl rfl (by decide) rfl

end VaultSpec
